import Mathlib

/-!
Shallow embedding of the core of back-to-school.py: a one-dimensional
cellular automaton.  Rows are lists of cells (the Python code uses the
characters ' ' and '#'); fillNextLine derives the next row with a 5-cell
neighborhood rule, padTrimLine maintains the padding around the filled
span, printPattern classifies the history, and play drives the loop up to
MAX_ROUNDS rounds.  Python's negative-index and slice semantics are
modelled explicitly (pyGet, pySet, pySlice), and operations that can raise
IndexError return Option.
-/

set_option autoImplicit false

/-- A cell of a row: the Python code uses the characters ' ' and '#'. -/
inductive Cell
  | empty
  | filled
deriving DecidableEq, Repr

abbrev Line := List Cell

/-- The predicate Python's str.strip family tests here: the cell is blank. -/
def isEmptyCell (c : Cell) : Bool := c == Cell.empty

/-- Python str.lstrip(): drop leading blanks. -/
def lstrip (l : Line) : Line := l.dropWhile isEmptyCell

/-- Python str.rstrip(): drop trailing blanks. -/
def rstrip (l : Line) : Line := (l.reverse.dropWhile isEmptyCell).reverse

/-- Python str.strip(): drop blanks at both ends. -/
def stripLine (l : Line) : Line := rstrip (lstrip l)

/-- Length of the leading blank run of a row. -/
def leadRun (l : Line) : Nat := (l.takeWhile isEmptyCell).length

/-- Length of the trailing blank run of a row. -/
def trailingRun (l : Line) : Nat := (l.reverse.takeWhile isEmptyCell).length

/-- Does the row contain at least one filled cell? -/
def hasFilled (l : Line) : Bool := l.any fun c => c == Cell.filled

/-- getFirstFilledIdx of the source: len(line) - len(line.lstrip()). -/
def getFirstFilledIdx (l : Line) : Int :=
  (l.length : Int) - ((lstrip l).length : Int)

/-- getLastFilledIdx of the source: len(line.rstrip()) - 1. -/
def getLastFilledIdx (l : Line) : Int :=
  ((rstrip l).length : Int) - 1

/-- Clamp one endpoint of a Python slice (step 1) to an index of the list:
negative endpoints first wrap by the length, then both are clamped. -/
def sliceIdx (len : Nat) (i : Int) : Nat :=
  if i < 0 then (max (i + len) 0).toNat else min i.toNat len

/-- Python slice line[a:b] with step 1, including negative endpoints. -/
def pySlice (l : Line) (a b : Int) : Line :=
  (l.take (sliceIdx l.length b)).drop (sliceIdx l.length a)

/-- getBlock of the source: line[pos-2 : pos+1+2]. -/
def getBlock (pos : Int) (l : Line) : Line := pySlice l (pos - 2) (pos + 3)

/-- Python indexing line[i]: a negative index wraps once by the length;
an index that is still out of range raises IndexError (modelled as none). -/
def pyGet (l : Line) (i : Int) : Option Cell :=
  if 0 ≤ i then l[i.toNat]?
  else if 0 ≤ i + l.length then l[(i + (l.length : Int)).toNat]? else none

/-- Python assignment arr[i] = c, with the same index semantics. -/
def pySet (l : Line) (i : Int) (c : Cell) : Option Line :=
  if 0 ≤ i then (if i < l.length then some (l.set i.toNat c) else none)
  else if 0 ≤ i + l.length then some (l.set (i + (l.length : Int)).toNat c)
  else none

/-- Python range(a, b) over integers. -/
def intRange (a b : Int) : List Int :=
  (List.range (b - a).toNat).map fun (k : Nat) => a + (k : Int)

/-- Truncation line[:r] (r possibly negative), as used by padTrimLine. -/
def pyTrunc (l : Line) (r : Int) : Line := l.take (sliceIdx l.length r)

/-- padTrimLine of the source: pad so that at least 3 blanks surround the
filled span, then cut trailing blanks in excess of 3. -/
def padTrimLine (line : Line) : Line :=
  let firstFilledIdx := getFirstFilledIdx line
  let lfill : Int := 3 - firstFilledIdx
  let lastFilledIdx := getLastFilledIdx line
  let rfill : Int := 3 - ((line.length : Int) - lastFilledIdx - 1)
  let l2 := List.replicate lfill.toNat Cell.empty ++ line
              ++ List.replicate rfill.toNat Cell.empty
  if rfill < 0 then pyTrunc l2 rfill else l2

/-- The indices scanned by fillNextLine's loop: range(startIdx, stopIdx+1)
with startIdx = getFirstFilledIdx - 1 and stopIdx = getLastFilledIdx + 1. -/
def scanIdxs (l : Line) : List Int :=
  intRange (getFirstFilledIdx l - 1) (getLastFilledIdx l + 2)

/-- One iteration of fillNextLine's loop: count the filled cells of the
5-cell block around i and write FILLED into the buffer when the rule for
the cell above fires (rule 1 for a blank cell, rule 2 for a filled one). -/
def fillStep (lineAbove : Line) (arr : Line) (i : Int) : Option Line :=
  let cnt := (getBlock i lineAbove).count Cell.filled
  match pyGet lineAbove i with
  | none => none
  | some c =>
    if c == Cell.empty then
      if cnt == 2 || cnt == 3 then pySet arr i Cell.filled else some arr
    else
      if cnt == 3 || cnt == 5 then pySet arr i Cell.filled else some arr

/-- The new row built by fillNextLine before padTrimLine is applied:
a buffer of blanks of the same length, written by the loop. -/
def fillRaw (lineAbove : Line) : Option Line :=
  (scanIdxs lineAbove).foldlM (fillStep lineAbove)
    (List.replicate lineAbove.length Cell.empty)

/-- fillNextLine of the source: build the next row, then re-pad it. -/
def fillNextLine (lineAbove : Line) : Option Line :=
  (fillRaw lineAbove).map padTrimLine

/-- The four classification outcomes printed by printPattern / play. -/
inductive Label
  | vanishing
  | blinking
  | gliding
  | other
deriving DecidableEq, Repr

/-- The exact string print() emits for each label. -/
def render : Label → String
  | Label.vanishing => "vanishing"
  | Label.blinking => "blinking"
  | Label.gliding => "gliding"
  | Label.other => "other"

def MAX_ROUNDS : Nat := 100

/-- The loop of printPattern over all but the last line, in increasing
index order: vanishing, then blinking, then gliding, first hit wins. -/
def patternLoop (lastline : Line) : List Line → Option Label
  | [] => none
  | line :: rest =>
    if stripLine lastline = [] then some Label.vanishing
    else if lastline = line then some Label.blinking
    else if stripLine lastline = stripLine line then some Label.gliding
    else patternLoop lastline rest

/-- printPattern of the source: run the loop over the prior rows; when no
check matched, report other once the history has reached MAX_ROUNDS rows. -/
def printPattern (lines : List Line) : Option Label :=
  match patternLoop (lines.getLast?.getD []) lines.dropLast with
  | some lab => some lab
  | none => if MAX_ROUNDS ≤ lines.length then some Label.other else none

/-- One round of play's loop: derive the next row and append it. -/
def stepGame (lines : List Line) : Option (List Line) :=
  match fillNextLine (lines.getLast?.getD []) with
  | none => none
  | some newline => some (lines ++ [newline])

/-- play's while-loop: while fewer than MAX_ROUNDS rows exist, derive one
row, classify, and stop at the first label printed.  The result carries
the label together with the number of rows in the history at that moment;
none models falling out of the loop (or of the fuel) with no label. -/
def runFrom : Nat → List Line → Option (Label × Nat)
  | 0, _ => none
  | fuel + 1, lines =>
    if lines.length < MAX_ROUNDS then
      match stepGame lines with
      | none => none
      | some lines2 =>
        match printPattern lines2 with
        | some lab => some (lab, lines2.length)
        | none => runFrom fuel lines2
    else none

/-- Run one session from a validated starting row (round 0). -/
def run (start : Line) : Option (Label × Nat) := runFrom MAX_ROUNDS [start]

/-- The padding invariant of the spec: at least 3 blanks before the first
filled cell and exactly 3 blanks after the last one, or no filled cell. -/
def padInv (l : Line) : Prop :=
  hasFilled l = false ∨ (3 ≤ getFirstFilledIdx l ∧ trailingRun l = 3)

instance decPadInv (l : Line) : Decidable (padInv l) := by
  unfold padInv; exact inferInstance

/-- The number of filled cells among the 5-cell neighborhood at offsets
-2..+2 of position j, stated directly on the list (spec-side count used in
the claim statements). -/
def wcount (l : Line) (j : Nat) : Nat :=
  ((l.drop (j - 2)).take 5).count Cell.filled

/-- Whether fillNextLine's rule fills index i from lineAbove (the decision
taken by fillStep, separated from the buffer write). -/
def fires (l : Line) (i : Int) : Bool :=
  match pyGet l i with
  | none => false
  | some c =>
    let cnt := (getBlock i l).count Cell.filled
    if c == Cell.empty then cnt == 2 || cnt == 3 else cnt == 3 || cnt == 5

/-- The per-prior check sequence exactly as the spec words it (§4.2):
vanishing first, then blinking, then gliding, for one prior row.  Used to
compare printPattern against the spec's description in claim 5. -/
def checkOne (lastline prior : Line) : Option Label :=
  if stripLine lastline = [] then some Label.vanishing
  else if lastline = prior then some Label.blinking
  else if stripLine lastline = stripLine prior then some Label.gliding
  else none

/-- The classifier as the spec describes it: scan the prior rows in
increasing index order, return the label of the first successful check,
and fall back to other at the round cap. -/
def specClassify (lines : List Line) : Option Label :=
  match (lines.dropLast).findSome? (checkOne (lines.getLast?.getD [])) with
  | some lab => some lab
  | none => if MAX_ROUNDS ≤ lines.length then some Label.other else none

/-! ### Basic facts about cells, blank runs and stripping -/

lemma cell_eq_empty_or_filled (c : Cell) : c = Cell.empty ∨ c = Cell.filled := by
  cases c
  · exact Or.inl rfl
  · exact Or.inr rfl

lemma hasFilled_cons_empty (xs : Line) :
    hasFilled (Cell.empty :: xs) = hasFilled xs := by
  simp [hasFilled]

lemma hasFilled_cons_filled (xs : Line) :
    hasFilled (Cell.filled :: xs) = true := by
  simp [hasFilled]

lemma hasFilled_iff_mem (l : Line) : hasFilled l = true ↔ Cell.filled ∈ l := by
  simp [hasFilled]

lemma hasFilled_eq_false_iff (l : Line) :
    hasFilled l = false ↔ ∀ c ∈ l, c = Cell.empty := by
  simp only [hasFilled, List.any_eq_false, beq_iff_eq]
  constructor
  · intro h c hc
    rcases cell_eq_empty_or_filled c with h1 | h1
    · exact h1
    · exact absurd h1 (h c hc)
  · intro h c hc hf
    rw [h c hc] at hf
    exact Cell.noConfusion hf

lemma not_filled_mem_replicate (n : Nat) :
    Cell.filled ∉ List.replicate n Cell.empty := by
  simp [List.mem_replicate]

lemma hasFilled_replicate_empty (n : Nat) :
    hasFilled (List.replicate n Cell.empty) = false := by
  rw [hasFilled_eq_false_iff]
  intro c hc
  exact (List.eq_of_mem_replicate hc)

lemma takeWhile_replicate_empty_append (n : Nat) (xs : Line) :
    (List.replicate n Cell.empty ++ xs).takeWhile isEmptyCell
      = List.replicate n Cell.empty ++ xs.takeWhile isEmptyCell := by
  induction n with
  | zero => simp
  | succ n ih =>
    rw [List.replicate_succ, List.cons_append,
      List.takeWhile_cons_of_pos (by rfl), ih, List.cons_append]

lemma dropWhile_replicate_empty_append (n : Nat) (xs : Line) :
    (List.replicate n Cell.empty ++ xs).dropWhile isEmptyCell
      = xs.dropWhile isEmptyCell := by
  induction n with
  | zero => simp
  | succ n ih =>
    rw [List.replicate_succ, List.cons_append,
      List.dropWhile_cons_of_pos (by rfl), ih]

lemma head_filled_ex (xs : Line) (h : xs.head? = some Cell.filled) :
    ∃ rest, xs = Cell.filled :: rest := by
  cases xs with
  | nil => exact absurd h (by simp)
  | cons c rest =>
    refine ⟨rest, ?_⟩
    simp only [List.head?_cons, Option.some.injEq] at h
    rw [h]

lemma takeWhile_head_filled (xs : Line) (h : xs.head? = some Cell.filled) :
    xs.takeWhile isEmptyCell = [] := by
  obtain ⟨rest, rfl⟩ := head_filled_ex xs h
  exact List.takeWhile_cons_of_neg (by simp [isEmptyCell])

lemma dropWhile_head_filled (xs : Line) (h : xs.head? = some Cell.filled) :
    xs.dropWhile isEmptyCell = xs := by
  obtain ⟨rest, rfl⟩ := head_filled_ex xs h
  exact List.dropWhile_cons_of_neg (by simp [isEmptyCell])

lemma dropWhile_head_not (l : Line) :
    ∀ c rest, l.dropWhile isEmptyCell = c :: rest → isEmptyCell c = false := by
  induction l with
  | nil => intro c rest h; simp at h
  | cons a as ih =>
    intro c rest h
    by_cases ha : isEmptyCell a = true
    · rw [List.dropWhile_cons_of_pos ha] at h
      exact ih c rest h
    · rw [List.dropWhile_cons_of_neg ha] at h
      injection h with h1 _
      rw [← h1]
      exact Bool.eq_false_iff.mpr ha

lemma takeWhile_eq_replicate_leadRun (l : Line) :
    l.takeWhile isEmptyCell = List.replicate (leadRun l) Cell.empty := by
  rw [List.eq_replicate_iff]
  refine ⟨rfl, fun b hb => ?_⟩
  have hp := List.mem_takeWhile_imp hb
  simpa [isEmptyCell] using hp

lemma takeWhile_append_hasFilled (xs ys : Line) (h : hasFilled xs = true) :
    (xs ++ ys).takeWhile isEmptyCell = xs.takeWhile isEmptyCell := by
  induction xs with
  | nil => simp [hasFilled] at h
  | cons c rest ih =>
    rcases cell_eq_empty_or_filled c with rfl | rfl
    · rw [hasFilled_cons_empty] at h
      rw [List.cons_append, List.takeWhile_cons_of_pos (by rfl),
        List.takeWhile_cons_of_pos (by rfl), ih h]
    · rw [List.cons_append, List.takeWhile_cons_of_neg (by simp [isEmptyCell]),
        List.takeWhile_cons_of_neg (by simp [isEmptyCell])]

lemma self_eq_lead_append_lstrip (l : Line) :
    l = List.replicate (leadRun l) Cell.empty ++ lstrip l := by
  conv_lhs => rw [← List.takeWhile_append_dropWhile (p := isEmptyCell) (l := l)]
  rw [takeWhile_eq_replicate_leadRun]
  rfl

lemma leadRun_reverse (l : Line) : leadRun l.reverse = trailingRun l := rfl

lemma self_eq_rstrip_append_trailing (l : Line) :
    l = rstrip l ++ List.replicate (trailingRun l) Cell.empty := by
  have h2 : l = (l.reverse.takeWhile isEmptyCell
      ++ l.reverse.dropWhile isEmptyCell).reverse := by
    rw [List.takeWhile_append_dropWhile, List.reverse_reverse]
  conv_lhs => rw [h2]
  rw [List.reverse_append, takeWhile_eq_replicate_leadRun, List.reverse_replicate,
    leadRun_reverse]
  rfl

lemma leadRun_add_lstrip_length (l : Line) :
    leadRun l + (lstrip l).length = l.length := by
  have h := congrArg List.length (List.takeWhile_append_dropWhile isEmptyCell l)
  rw [List.length_append] at h
  exact h

lemma getFirstFilledIdx_eq_leadRun (l : Line) :
    getFirstFilledIdx l = (leadRun l : Int) := by
  have h := leadRun_add_lstrip_length l
  unfold getFirstFilledIdx
  omega

lemma rstrip_length_add_trailing (l : Line) :
    (rstrip l).length + trailingRun l = l.length := by
  have h := congrArg List.length (self_eq_rstrip_append_trailing l)
  simp at h
  omega

lemma getLastFilledIdx_eq (l : Line) :
    getLastFilledIdx l = (l.length : Int) - (trailingRun l : Int) - 1 := by
  have h := rstrip_length_add_trailing l
  unfold getLastFilledIdx
  omega

lemma lstrip_head_filled (l : Line) (h : hasFilled l = true) :
    (lstrip l).head? = some Cell.filled := by
  have hne : lstrip l ≠ [] := by
    intro hnil
    rw [hasFilled_iff_mem] at h
    have hp := (List.dropWhile_eq_nil_iff).mp hnil Cell.filled h
    simp [isEmptyCell] at hp
  cases hl : lstrip l with
  | nil => exact absurd hl hne
  | cons c rest =>
    have hc := dropWhile_head_not l c rest hl
    rcases cell_eq_empty_or_filled c with rfl | rfl
    · simp [isEmptyCell] at hc
    · simp

lemma hasFilled_lstrip (l : Line) (h : hasFilled l = true) :
    hasFilled (lstrip l) = true := by
  rw [hasFilled_iff_mem] at h ⊢
  have hdec := self_eq_lead_append_lstrip l
  rw [hdec, List.mem_append] at h
  rcases h with h | h
  · exact absurd h (not_filled_mem_replicate _)
  · exact h

lemma head?_append_of_ne_nil (xs ys : Line) (h : xs ≠ []) :
    (xs ++ ys).head? = xs.head? := by
  cases xs with
  | nil => exact absurd rfl h
  | cons c rest => simp

lemma hasFilled_rstrip (l : Line) (h : hasFilled l = true) :
    hasFilled (rstrip l) = true := by
  rw [hasFilled_iff_mem] at h ⊢
  have hdec := self_eq_rstrip_append_trailing l
  rw [hdec, List.mem_append] at h
  rcases h with h | h
  · exact h
  · exact absurd h (not_filled_mem_replicate _)

lemma rstrip_ne_nil (l : Line) (h : hasFilled l = true) : rstrip l ≠ [] := by
  intro hnil
  have hf := hasFilled_rstrip l h
  rw [hnil] at hf
  exact Bool.noConfusion hf

lemma rstrip_head? (l : Line) (h : hasFilled l = true) :
    (rstrip l).head? = l.head? := by
  conv_rhs => rw [self_eq_rstrip_append_trailing l]
  rw [head?_append_of_ne_nil _ _ (rstrip_ne_nil l h)]

lemma rstrip_getLast?_filled (l : Line) (h : hasFilled l = true) :
    (rstrip l).getLast? = some Cell.filled := by
  unfold rstrip
  rw [List.getLast?_reverse]
  have hrev : hasFilled l.reverse = true := by
    rw [hasFilled_iff_mem] at h ⊢
    exact List.mem_reverse.mpr h
  exact lstrip_head_filled l.reverse hrev

lemma trailingRun_lstrip (l : Line) (h : hasFilled l = true) :
    trailingRun (lstrip l) = trailingRun l := by
  have hrev : l.reverse = (lstrip l).reverse
      ++ List.replicate (leadRun l) Cell.empty := by
    conv_lhs => rw [self_eq_lead_append_lstrip l]
    rw [List.reverse_append, List.reverse_replicate]
  have hfr : hasFilled (lstrip l).reverse = true := by
    rw [hasFilled_iff_mem, List.mem_reverse, ← hasFilled_iff_mem]
    exact hasFilled_lstrip l h
  unfold trailingRun
  rw [hrev, takeWhile_append_hasFilled _ _ hfr]

lemma decompose_hasFilled (l : Line) (h : hasFilled l = true) :
    l = List.replicate (leadRun l) Cell.empty ++ stripLine l
          ++ List.replicate (trailingRun l) Cell.empty
      ∧ (stripLine l).head? = some Cell.filled
      ∧ (stripLine l).getLast? = some Cell.filled := by
  have hfl : hasFilled (lstrip l) = true := hasFilled_lstrip l h
  refine ⟨?_, ?_, ?_⟩
  · conv_lhs => rw [self_eq_lead_append_lstrip l]
    conv_lhs => rw [self_eq_rstrip_append_trailing (lstrip l)]
    rw [trailingRun_lstrip l h, ← List.append_assoc]
    rfl
  · show (rstrip (lstrip l)).head? = some Cell.filled
    rw [rstrip_head? (lstrip l) hfl]
    exact lstrip_head_filled l h
  · exact rstrip_getLast?_filled (lstrip l) hfl

/-! ### Canonical shape: blanks ++ core ++ blanks, with a core that starts
and ends with a filled cell -/

lemma canon_core_ne_nil (core : Line) (hh : core.head? = some Cell.filled) :
    core ≠ [] := by
  intro hn
  rw [hn] at hh
  simp at hh

lemma canon_takeWhile (k t : Nat) (core : Line)
    (hh : core.head? = some Cell.filled) :
    (List.replicate k Cell.empty ++ core
        ++ List.replicate t Cell.empty).takeWhile isEmptyCell
      = List.replicate k Cell.empty := by
  have hcr : (core ++ List.replicate t Cell.empty).head? = some Cell.filled := by
    rw [head?_append_of_ne_nil _ _ (canon_core_ne_nil core hh)]
    exact hh
  rw [List.append_assoc, takeWhile_replicate_empty_append,
    takeWhile_head_filled _ hcr, List.append_nil]

lemma canon_leadRun (k t : Nat) (core : Line)
    (hh : core.head? = some Cell.filled) :
    leadRun (List.replicate k Cell.empty ++ core
        ++ List.replicate t Cell.empty) = k := by
  unfold leadRun
  rw [canon_takeWhile k t core hh, List.length_replicate]

lemma canon_lstrip (k t : Nat) (core : Line)
    (hh : core.head? = some Cell.filled) :
    lstrip (List.replicate k Cell.empty ++ core ++ List.replicate t Cell.empty)
      = core ++ List.replicate t Cell.empty := by
  have hcr : (core ++ List.replicate t Cell.empty).head? = some Cell.filled := by
    rw [head?_append_of_ne_nil _ _ (canon_core_ne_nil core hh)]
    exact hh
  unfold lstrip
  rw [List.append_assoc, dropWhile_replicate_empty_append,
    dropWhile_head_filled _ hcr]

lemma canon_reverse (k t : Nat) (core : Line) :
    (List.replicate k Cell.empty ++ core ++ List.replicate t Cell.empty).reverse
      = List.replicate t Cell.empty ++ core.reverse
          ++ List.replicate k Cell.empty := by
  simp [List.reverse_append, List.reverse_replicate, List.append_assoc]

lemma canon_trailingRun (k t : Nat) (core : Line)
    (hl : core.getLast? = some Cell.filled) :
    trailingRun (List.replicate k Cell.empty ++ core
        ++ List.replicate t Cell.empty) = t := by
  have hh2 : core.reverse.head? = some Cell.filled := by
    rw [List.head?_reverse]
    exact hl
  rw [← leadRun_reverse, canon_reverse, canon_leadRun t k core.reverse hh2]

lemma canon_rstrip (k t : Nat) (core : Line)
    (hl : core.getLast? = some Cell.filled) :
    rstrip (List.replicate k Cell.empty ++ core ++ List.replicate t Cell.empty)
      = List.replicate k Cell.empty ++ core := by
  have hh2 : core.reverse.head? = some Cell.filled := by
    rw [List.head?_reverse]
    exact hl
  unfold rstrip
  rw [canon_reverse]
  rw [show (List.replicate t Cell.empty ++ core.reverse
      ++ List.replicate k Cell.empty).dropWhile isEmptyCell
    = core.reverse ++ List.replicate k Cell.empty
    from canon_lstrip t k core.reverse hh2]
  simp [List.reverse_append, List.reverse_replicate]

lemma canon_stripLine (k t : Nat) (core : Line)
    (hh : core.head? = some Cell.filled) (hl : core.getLast? = some Cell.filled) :
    stripLine (List.replicate k Cell.empty ++ core
        ++ List.replicate t Cell.empty) = core := by
  unfold stripLine
  rw [canon_lstrip k t core hh]
  have h0 : core ++ List.replicate t Cell.empty
      = List.replicate 0 Cell.empty ++ core ++ List.replicate t Cell.empty := by
    simp
  rw [h0, canon_rstrip 0 t core hl]
  simp

lemma canon_length (k t : Nat) (core : Line) :
    (List.replicate k Cell.empty ++ core
        ++ List.replicate t Cell.empty).length = k + core.length + t := by
  simp [Nat.add_assoc]

lemma canon_first (k t : Nat) (core : Line)
    (hh : core.head? = some Cell.filled) :
    getFirstFilledIdx (List.replicate k Cell.empty ++ core
        ++ List.replicate t Cell.empty) = (k : Int) := by
  rw [getFirstFilledIdx_eq_leadRun, canon_leadRun k t core hh]

lemma canon_last (k t : Nat) (core : Line)
    (hl : core.getLast? = some Cell.filled) :
    getLastFilledIdx (List.replicate k Cell.empty ++ core
        ++ List.replicate t Cell.empty)
      = (k : Int) + (core.length : Int) - 1 := by
  unfold getLastFilledIdx
  rw [canon_rstrip k t core hl]
  rw [List.length_append, List.length_replicate]
  push_cast
  ring

lemma canon_hasFilled (k t : Nat) (core : Line)
    (hh : core.head? = some Cell.filled) :
    hasFilled (List.replicate k Cell.empty ++ core
        ++ List.replicate t Cell.empty) = true := by
  obtain ⟨rest, rfl⟩ := head_filled_ex core hh
  simp [hasFilled]

lemma count_replicate_empty (n : Nat) :
    (List.replicate n Cell.empty).count Cell.filled = 0 := by
  simp [List.count_replicate]

lemma canon_count (k t : Nat) (core : Line) :
    (List.replicate k Cell.empty ++ core
        ++ List.replicate t Cell.empty).count Cell.filled
      = core.count Cell.filled := by
  rw [List.count_append, List.count_append, count_replicate_empty,
    count_replicate_empty]
  omega

/-! ### Computing padTrimLine -/

lemma padTrimLine_eq (line : Line) :
    padTrimLine line =
      if 3 - ((line.length : Int) - getLastFilledIdx line - 1) < 0 then
        pyTrunc (List.replicate (3 - getFirstFilledIdx line).toNat Cell.empty
            ++ line
            ++ List.replicate
                (3 - ((line.length : Int) - getLastFilledIdx line - 1)).toNat
                Cell.empty)
          (3 - ((line.length : Int) - getLastFilledIdx line - 1))
      else
        List.replicate (3 - getFirstFilledIdx line).toNat Cell.empty ++ line
          ++ List.replicate
              (3 - ((line.length : Int) - getLastFilledIdx line - 1)).toNat
              Cell.empty := rfl

lemma padTrimLine_canon (k t : Nat) (core : Line)
    (hh : core.head? = some Cell.filled) (hl : core.getLast? = some Cell.filled) :
    padTrimLine (List.replicate k Cell.empty ++ core
        ++ List.replicate t Cell.empty)
      = List.replicate (max 3 k) Cell.empty ++ core
          ++ List.replicate 3 Cell.empty := by
  have hrf : (3 : Int) - (((List.replicate k Cell.empty ++ core
        ++ List.replicate t Cell.empty).length : Int)
      - getLastFilledIdx (List.replicate k Cell.empty ++ core
        ++ List.replicate t Cell.empty) - 1) = 3 - (t : Int) := by
    rw [canon_last k t core hl, canon_length k t core]
    push_cast
    ring
  have ha : ((3 : Int) - getFirstFilledIdx (List.replicate k Cell.empty ++ core
      ++ List.replicate t Cell.empty)).toNat = 3 - k := by
    rw [canon_first k t core hh]
    omega
  rw [padTrimLine_eq, hrf, ha]
  by_cases ht : (3 : Int) - (t : Int) < 0
  · rw [if_pos ht]
    have hb0 : ((3 : Int) - (t : Int)).toNat = 0 := by omega
    rw [hb0]
    unfold pyTrunc
    have hjoin : List.replicate (3 - k) Cell.empty
        ++ (List.replicate k Cell.empty ++ core ++ List.replicate t Cell.empty)
        ++ List.replicate 0 Cell.empty
        = List.replicate (max 3 k) Cell.empty
            ++ (core ++ List.replicate t Cell.empty) := by
      simp only [List.replicate_zero, List.append_nil, List.append_assoc]
      rw [show max 3 k = (3 - k) + k from by omega, List.replicate_add,
        List.append_assoc]
    rw [hjoin]
    have hlen2 : (List.replicate (max 3 k) Cell.empty
        ++ (core ++ List.replicate t Cell.empty)).length
        = max 3 k + core.length + t := by
      simp [Nat.add_assoc]
    have hs : sliceIdx (List.replicate (max 3 k) Cell.empty
        ++ (core ++ List.replicate t Cell.empty)).length ((3 : Int) - (t : Int))
        = max 3 k + core.length + 3 := by
      rw [hlen2]
      unfold sliceIdx
      rw [if_pos ht]
      omega
    rw [hs]
    rw [List.take_append_eq_append_take,
      List.take_of_length_le (by simp; omega),
      List.take_append_eq_append_take,
      List.take_of_length_le (by simp; omega)]
    have h5 : max 3 k + core.length + 3 - (List.replicate (max 3 k) Cell.empty).length
        - core.length = 3 := by
      simp
      omega
    rw [h5, List.take_replicate]
    have h6 : min 3 t = 3 := by omega
    rw [show (3 ⊓ t) = min 3 t from rfl, h6, List.append_assoc]
  · rw [if_neg ht]
    have hb3 : ((3 : Int) - (t : Int)).toNat = 3 - t := by omega
    rw [hb3]
    have h1 : (3 - k) + k = max 3 k := by omega
    have h2 : t + (3 - t) = 3 := by omega
    have key : ∀ (a b : Nat) (X : Line),
        List.replicate a Cell.empty ++ (List.replicate b Cell.empty ++ X)
          = List.replicate (a + b) Cell.empty ++ X := by
      intro a b X
      rw [← List.append_assoc, ← List.replicate_add]
    simp only [List.append_assoc]
    rw [key (3 - k) k, ← List.replicate_add, h1, h2]

lemma lstrip_allEmpty (l : Line) (h : hasFilled l = false) : lstrip l = [] := by
  unfold lstrip
  rw [List.dropWhile_eq_nil_iff]
  intro x hx
  rw [(hasFilled_eq_false_iff l).mp h x hx]
  rfl

lemma hasFilled_reverse (l : Line) : hasFilled l.reverse = hasFilled l := by
  cases h : hasFilled l with
  | false =>
    rw [hasFilled_eq_false_iff] at h ⊢
    intro c hc
    exact h c (List.mem_reverse.mp hc)
  | true =>
    rw [hasFilled_iff_mem] at h ⊢
    exact List.mem_reverse.mpr h

lemma rstrip_allEmpty (l : Line) (h : hasFilled l = false) : rstrip l = [] := by
  unfold rstrip
  rw [show l.reverse.dropWhile isEmptyCell = lstrip l.reverse from rfl,
    lstrip_allEmpty l.reverse (by rw [hasFilled_reverse]; exact h)]
  rfl

lemma stripLine_allEmpty (l : Line) (h : hasFilled l = false) :
    stripLine l = [] := by
  unfold stripLine
  rw [lstrip_allEmpty l h]
  rfl

lemma stripLine_replicate_empty (n : Nat) :
    stripLine (List.replicate n Cell.empty) = [] :=
  stripLine_allEmpty _ (hasFilled_replicate_empty n)

lemma eq_replicate_length_of_allEmpty (l : Line) (h : hasFilled l = false) :
    l = List.replicate l.length Cell.empty := by
  rw [List.eq_replicate_iff]
  exact ⟨rfl, (hasFilled_eq_false_iff l).mp h⟩

lemma padTrimLine_replicate_empty (n : Nat) :
    padTrimLine (List.replicate n Cell.empty)
      = List.replicate (max 3 (6 - n)) Cell.empty := by
  have hfe := hasFilled_replicate_empty n
  have hfi : getFirstFilledIdx (List.replicate n Cell.empty) = (n : Int) := by
    unfold getFirstFilledIdx
    rw [lstrip_allEmpty _ hfe]
    simp
  have hla : getLastFilledIdx (List.replicate n Cell.empty) = -1 := by
    unfold getLastFilledIdx
    rw [rstrip_allEmpty _ hfe]
    rfl
  rw [padTrimLine_eq, hfi, hla, List.length_replicate]
  have hrf : (3 : Int) - ((n : Int) - (-1) - 1) = 3 - (n : Int) := by ring
  rw [hrf]
  by_cases hlt : (3 : Int) - (n : Int) < 0
  · rw [if_pos hlt]
    have h1 : ((3 : Int) - (n : Int)).toNat = 0 := by omega
    rw [h1]
    unfold pyTrunc
    simp only [List.replicate_zero, List.nil_append, List.append_nil]
    have hs : sliceIdx (List.replicate n Cell.empty).length
        ((3 : Int) - (n : Int)) = 3 := by
      rw [List.length_replicate]
      unfold sliceIdx
      rw [if_pos hlt]
      omega
    rw [hs, List.take_replicate]
    congr 1
    omega
  · rw [if_neg hlt]
    have h1 : ((3 : Int) - (n : Int)).toNat = 3 - n := by omega
    rw [h1, ← List.replicate_add, ← List.replicate_add]
    congr 1
    omega

lemma padTrimLine_allEmpty (l : Line) (h : hasFilled l = false) :
    padTrimLine l = List.replicate (max 3 (6 - l.length)) Cell.empty := by
  conv_lhs => rw [eq_replicate_length_of_allEmpty l h]
  rw [padTrimLine_replicate_empty]

lemma padTrimLine_decomp (l : Line) (h : hasFilled l = true) :
    padTrimLine l = List.replicate (max 3 (leadRun l)) Cell.empty
      ++ stripLine l ++ List.replicate 3 Cell.empty := by
  obtain ⟨hdec, hh, hl2⟩ := decompose_hasFilled l h
  conv_lhs => rw [hdec]
  exact padTrimLine_canon _ _ _ hh hl2

lemma padInv_padTrimLine (l : Line) : padInv (padTrimLine l) := by
  cases h : hasFilled l with
  | false =>
    rw [padTrimLine_allEmpty l h]
    exact Or.inl (hasFilled_replicate_empty _)
  | true =>
    obtain ⟨hdec, hh, hl2⟩ := decompose_hasFilled l h
    rw [padTrimLine_decomp l h]
    refine Or.inr ⟨?_, canon_trailingRun _ _ _ hl2⟩
    rw [canon_first _ _ _ hh]
    have h3 : 3 ≤ max 3 (leadRun l) := le_max_left 3 (leadRun l)
    exact_mod_cast h3

lemma padTrimLine_length_ge (l : Line) : 3 ≤ (padTrimLine l).length := by
  cases h : hasFilled l with
  | false =>
    rw [padTrimLine_allEmpty l h, List.length_replicate]
    omega
  | true =>
    rw [padTrimLine_decomp l h, canon_length]
    omega

lemma hasFilled_padTrimLine (l : Line) :
    hasFilled (padTrimLine l) = hasFilled l := by
  cases h : hasFilled l with
  | false =>
    rw [padTrimLine_allEmpty l h]
    exact hasFilled_replicate_empty _
  | true =>
    obtain ⟨hdec, hh, hl2⟩ := decompose_hasFilled l h
    rw [padTrimLine_decomp l h]
    exact canon_hasFilled _ _ _ hh

lemma trailingRun_padTrimLine (l : Line) (h : hasFilled l = true) :
    trailingRun (padTrimLine l) = 3 := by
  obtain ⟨hdec, hh, hl2⟩ := decompose_hasFilled l h
  rw [padTrimLine_decomp l h]
  exact canon_trailingRun _ _ _ hl2

lemma leadRun_padTrimLine (l : Line) (h : hasFilled l = true) :
    leadRun (padTrimLine l) = max 3 (leadRun l) := by
  obtain ⟨hdec, hh, hl2⟩ := decompose_hasFilled l h
  rw [padTrimLine_decomp l h]
  exact canon_leadRun _ _ _ hh

lemma count_padTrimLine (l : Line) :
    (padTrimLine l).count Cell.filled = l.count Cell.filled := by
  cases h : hasFilled l with
  | false =>
    rw [padTrimLine_allEmpty l h, count_replicate_empty]
    rw [show l.count Cell.filled = 0 from by
      conv_lhs => rw [eq_replicate_length_of_allEmpty l h]
      exact count_replicate_empty _]
  | true =>
    obtain ⟨hdec, hh, hl2⟩ := decompose_hasFilled l h
    rw [padTrimLine_decomp l h, canon_count]
    conv_rhs => rw [hdec]
    rw [canon_count]

lemma padTrimLine_idem (l : Line) (h : hasFilled l = true) :
    padTrimLine (padTrimLine l) = padTrimLine l := by
  obtain ⟨hdec, hh, hl2⟩ := decompose_hasFilled l h
  rw [padTrimLine_decomp l h, padTrimLine_canon _ _ _ hh hl2]
  rw [show max 3 (max 3 (leadRun l)) = max 3 (leadRun l) from by omega]

/-! ### Python indexing and the write loop -/

lemma pyGet_inBounds (l : Line) (i : Int) (h0 : 0 ≤ i) (h1 : i < (l.length : Int)) :
    pyGet l i = some (l.getD i.toNat Cell.empty) := by
  unfold pyGet
  rw [if_pos h0]
  have hlt : i.toNat < l.length := by omega
  rw [List.getElem?_eq_getElem hlt, List.getD_eq_getElem?_getD,
    List.getElem?_eq_getElem hlt]
  rfl

lemma pySet_inBounds (l : Line) (i : Int) (c : Cell)
    (h0 : 0 ≤ i) (h1 : i < (l.length : Int)) :
    pySet l i c = some (l.set i.toNat c) := by
  unfold pySet
  rw [if_pos h0, if_pos h1]

lemma getD_set_self (l : Line) (m : Nat) (c : Cell) (h : m < l.length) :
    (l.set m c).getD m Cell.empty = c := by
  rw [List.getD_eq_getElem?_getD, List.getElem?_set, if_pos rfl, if_pos h]
  rfl

lemma getD_set_ne (l : Line) (m j : Nat) (c : Cell) (h : m ≠ j) :
    (l.set m c).getD j Cell.empty = l.getD j Cell.empty := by
  rw [List.getD_eq_getElem?_getD, List.getElem?_set, if_neg h,
    ← List.getD_eq_getElem?_getD]

lemma getD_replicate_empty (n j : Nat) :
    (List.replicate n Cell.empty).getD j Cell.empty = Cell.empty := by
  rw [List.getD_eq_getElem?_getD, List.getElem?_replicate]
  split
  · rfl
  · rfl

lemma mem_intRange {a b i : Int} : i ∈ intRange a b ↔ a ≤ i ∧ i < b := by
  constructor
  · intro hmem
    obtain ⟨k, hk, hke⟩ := List.mem_map.mp hmem
    rw [List.mem_range] at hk
    omega
  · intro h
    refine List.mem_map.mpr ⟨(i - a).toNat, ?_, ?_⟩
    · rw [List.mem_range]
      omega
    · omega

lemma intRange_eq_nil {a b : Int} (h : b ≤ a) : intRange a b = [] := by
  unfold intRange
  rw [show (b - a).toNat = 0 from by omega]
  rfl

lemma fillStep_char (l arr : Line) (i : Int)
    (h0 : 0 ≤ i) (h1 : i < (l.length : Int)) (harr : arr.length = l.length) :
    fillStep l arr i
      = some (if fires l i = true then arr.set i.toNat Cell.filled else arr) := by
  have h1a : i < (arr.length : Int) := by rw [harr]; exact h1
  unfold fillStep fires
  rw [pyGet_inBounds l i h0 h1]
  dsimp only
  rcases cell_eq_empty_or_filled (l.getD i.toNat Cell.empty) with hc | hc <;>
    rw [hc]
  · rw [show (Cell.empty == Cell.empty) = true from rfl]
    cases hb : ((getBlock i l).count Cell.filled == 2
        || (getBlock i l).count Cell.filled == 3) with
    | true => simp [hb, pySet_inBounds arr i Cell.filled h0 h1a]
    | false => simp [hb]
  · rw [show (Cell.filled == Cell.empty) = false from rfl]
    cases hb : ((getBlock i l).count Cell.filled == 3
        || (getBlock i l).count Cell.filled == 5) with
    | true => simp [hb, pySet_inBounds arr i Cell.filled h0 h1a]
    | false => simp [hb]

lemma length_if_set (arr : Line) (b : Bool) (m : Nat) (c : Cell) :
    (if b = true then arr.set m c else arr).length = arr.length := by
  cases b
  · rfl
  · simp [List.length_set]

lemma fold_char (l : Line) (idxs : List Int) :
    ∀ (arr : Line),
      (∀ i ∈ idxs, 0 ≤ i ∧ i < (l.length : Int)) →
      arr.length = l.length →
      ∃ final, List.foldlM (fillStep l) arr idxs = some final ∧
        final.length = l.length ∧
        ∀ j : Nat, j < l.length →
          final.getD j Cell.empty =
            if ((j : Int) ∈ idxs ∧ fires l j = true) then Cell.filled
            else arr.getD j Cell.empty := by
  induction idxs with
  | nil =>
    intro arr _ harr
    refine ⟨arr, by rw [List.foldlM_nil]; rfl, harr, ?_⟩
    intro j hj
    rw [if_neg (by simp)]
  | cons i rest ih =>
    intro arr hbounds harr
    obtain ⟨h0, h1⟩ := hbounds i (List.mem_cons_self i rest)
    have hstep := fillStep_char l arr i h0 h1 harr
    have harr1len : (if fires l i = true then arr.set i.toNat Cell.filled
        else arr).length = l.length := by
      rw [length_if_set, harr]
    obtain ⟨final, hfold, hlen, hchar⟩ :=
      ih (if fires l i = true then arr.set i.toNat Cell.filled else arr)
        (fun x hx => hbounds x (List.mem_cons_of_mem i hx)) harr1len
    refine ⟨final, ?_, hlen, ?_⟩
    · rw [List.foldlM_cons, hstep]
      simpa using hfold
    · intro j hj
      rw [hchar j hj]
      have hja : j < arr.length := by omega
      by_cases hfj : fires l j = true
      · by_cases hjr : (j : Int) ∈ rest
        · rw [if_pos ⟨hjr, hfj⟩, if_pos ⟨List.mem_cons_of_mem i hjr, hfj⟩]
        · rw [if_neg (fun hand => hjr hand.1)]
          by_cases hji : (j : Int) = i
          · have hfi : fires l i = true := by rw [← hji]; exact hfj
            rw [if_pos hfi, show i.toNat = j from by omega,
              getD_set_self arr j Cell.filled hja,
              if_pos ⟨by rw [List.mem_cons]; exact Or.inl hji, hfj⟩]
          · have hnotc : ¬ ((j : Int) ∈ i :: rest ∧ fires l j = true) := by
              intro hand
              rcases List.mem_cons.mp hand.1 with h | h
              · exact hji h
              · exact hjr h
            rw [if_neg hnotc]
            cases hfi : fires l i with
            | true =>
              rw [if_pos rfl]
              exact getD_set_ne arr i.toNat j Cell.filled (by omega)
            | false =>
              rw [if_neg Bool.false_ne_true]
      · rw [if_neg (show ¬ ((j : Int) ∈ rest ∧ fires l j = true) from
            fun hand => hfj hand.2),
          if_neg (show ¬ ((j : Int) ∈ i :: rest ∧ fires l j = true) from
            fun hand => hfj hand.2)]
        by_cases hji : (j : Int) = i
        · have hfi : fires l i = false := by
            rw [← hji]
            exact Bool.eq_false_iff.mpr hfj
          rw [if_neg (show ¬ fires l i = true from by
            rw [hfi]; exact Bool.false_ne_true)]
        · cases hfi : fires l i with
          | true =>
            rw [if_pos rfl]
            exact getD_set_ne arr i.toNat j Cell.filled (by omega)
          | false =>
            rw [if_neg Bool.false_ne_true]

lemma padInv_facts (l : Line) (hinv : padInv l) (hf : hasFilled l = true) :
    3 ≤ getFirstFilledIdx l ∧ trailingRun l = 3 := by
  rcases hinv with h | h
  · rw [hf] at h
    exact Bool.noConfusion h
  · exact h

lemma scanIdxs_bounds (l : Line) (hinv : padInv l) (hf : hasFilled l = true) :
    ∀ i ∈ scanIdxs l, 0 ≤ i ∧ i < (l.length : Int) := by
  obtain ⟨h3, ht⟩ := padInv_facts l hinv hf
  have hlast := getLastFilledIdx_eq l
  intro i hi
  unfold scanIdxs at hi
  rw [mem_intRange] at hi
  omega

lemma beq_or_iff (n a b : Nat) :
    ((n == a) || (n == b)) = true ↔ (n = a ∨ n = b) := by
  simp

lemma fires_spec (l : Line) (j : Nat) (h2 : 2 ≤ j)
    (h3 : (j : Int) + 3 ≤ (l.length : Int)) :
    fires l j = true ↔
      ((l.getD j Cell.empty = Cell.empty ∧ (wcount l j = 2 ∨ wcount l j = 3)) ∨
       (l.getD j Cell.empty = Cell.filled ∧ (wcount l j = 3 ∨ wcount l j = 5))) := by
  have hjL : (j : Int) < (l.length : Int) := by omega
  have hblock : getBlock (j : Int) l = (l.drop (j - 2)).take 5 := by
    unfold getBlock pySlice
    have ha : sliceIdx l.length ((j : Int) - 2) = j - 2 := by
      unfold sliceIdx
      rw [if_neg (by omega)]
      have hle : ((j : Int) - 2).toNat ≤ l.length := by omega
      rw [min_eq_left hle]
      omega
    have hb : sliceIdx l.length ((j : Int) + 3) = j + 3 := by
      unfold sliceIdx
      rw [if_neg (by omega)]
      have hle : ((j : Int) + 3).toNat ≤ l.length := by omega
      rw [min_eq_left hle]
      omega
    rw [ha, hb, List.drop_take]
    rw [show j + 3 - (j - 2) = 5 from by omega]
  have hcast : ((j : Int)).toNat = j := by omega
  unfold fires
  rw [pyGet_inBounds l j (by omega) hjL, hcast]
  dsimp only
  rw [hblock]
  have hwc : ((l.drop (j - 2)).take 5).count Cell.filled = wcount l j := rfl
  rw [hwc]
  rcases cell_eq_empty_or_filled (l.getD j Cell.empty) with hc | hc <;> rw [hc]
  · rw [show (Cell.empty == Cell.empty) = true from rfl, if_pos rfl,
      beq_or_iff]
    constructor
    · intro h
      exact Or.inl ⟨rfl, h⟩
    · intro h
      rcases h with ⟨_, h⟩ | ⟨hbad, _⟩
      · exact h
      · exact absurd hbad (by simp)
  · rw [show (Cell.filled == Cell.empty) = false from rfl,
      if_neg Bool.false_ne_true, beq_or_iff]
    constructor
    · intro h
      exact Or.inr ⟨rfl, h⟩
    · intro h
      rcases h with ⟨hbad, _⟩ | ⟨_, h⟩
      · exact absurd hbad (by simp)
      · exact h

lemma fillRaw_char (l : Line) (hinv : padInv l) (hf : hasFilled l = true) :
    ∃ final, fillRaw l = some final ∧ final.length = l.length ∧
      ∀ j : Nat, j < l.length →
        final.getD j Cell.empty =
          if ((j : Int) ∈ scanIdxs l ∧ fires l j = true) then Cell.filled
          else Cell.empty := by
  obtain ⟨final, hfold, hlen, hchar⟩ :=
    fold_char l (scanIdxs l) (List.replicate l.length Cell.empty)
      (scanIdxs_bounds l hinv hf) (List.length_replicate _ _)
  refine ⟨final, hfold, hlen, ?_⟩
  intro j hj
  rw [hchar j hj, getD_replicate_empty]

lemma fillRaw_allEmpty (l : Line) (h : hasFilled l = false)
    (h2 : 2 ≤ l.length) : fillRaw l = some l := by
  have hfi : getFirstFilledIdx l = (l.length : Int) := by
    unfold getFirstFilledIdx
    rw [lstrip_allEmpty l h]
    simp
  have hla : getLastFilledIdx l = -1 := by
    unfold getLastFilledIdx
    rw [rstrip_allEmpty l h]
    rfl
  have hidx : scanIdxs l = [] := by
    unfold scanIdxs
    rw [hfi, hla]
    exact intRange_eq_nil (by omega)
  unfold fillRaw
  rw [hidx, List.foldlM_nil]
  rw [show List.replicate l.length Cell.empty = l from
    (eq_replicate_length_of_allEmpty l h).symm]
  rfl

lemma ite_filled_iff (c : Prop) [Decidable c] :
    (if c then Cell.filled else Cell.empty) = Cell.filled ↔ c := by
  split
  · simpa
  · constructor
    · intro h
      exact Cell.noConfusion h
    · intro h
      simp_all

/-- C1: for every row with the padding invariant and at least one
filled cell, the pre-padding output of fillNextLine is filled at j exactly
when j lies in [first-1, last+1] and the 5-cell neighborhood count obeys
rule 1 (count 2 or 3 over an empty cell) or rule 2 (count 3 or 5 over a
filled cell); all other positions are empty. -/
theorem claim1_derivation_rule (l : Line) (j : Nat)
    (hinv : padInv l) (hf : hasFilled l = true) (hj : j < l.length) :
    (fillRaw l).isSome = true ∧
    ((fillRaw l).getD []).length = l.length ∧
    (((fillRaw l).getD []).getD j Cell.empty = Cell.filled ↔
      (getFirstFilledIdx l - 1 ≤ (j : Int) ∧ (j : Int) ≤ getLastFilledIdx l + 1 ∧
        ((l.getD j Cell.empty = Cell.empty ∧ (wcount l j = 2 ∨ wcount l j = 3)) ∨
         (l.getD j Cell.empty = Cell.filled ∧ (wcount l j = 3 ∨ wcount l j = 5))))) := by
  obtain ⟨final, hfill, hlen, hchar⟩ := fillRaw_char l hinv hf
  rw [hfill]
  refine ⟨rfl, by rw [Option.getD_some]; exact hlen, ?_⟩
  rw [Option.getD_some, hchar j hj, ite_filled_iff]
  obtain ⟨h3, ht⟩ := padInv_facts l hinv hf
  have hlast := getLastFilledIdx_eq l
  have hmem : (j : Int) ∈ scanIdxs l ↔
      (getFirstFilledIdx l - 1 ≤ (j : Int) ∧ (j : Int) ≤ getLastFilledIdx l + 1) := by
    unfold scanIdxs
    rw [mem_intRange]
    omega
  constructor
  · rintro ⟨hm, hfire⟩
    rw [hmem] at hm
    have h2j : 2 ≤ j := by omega
    have h3j : (j : Int) + 3 ≤ (l.length : Int) := by omega
    exact ⟨hm.1, hm.2, (fires_spec l j h2j h3j).mp hfire⟩
  · rintro ⟨hr1, hr2, hrule⟩
    have h2j : 2 ≤ j := by omega
    have h3j : (j : Int) + 3 ≤ (l.length : Int) := by omega
    exact ⟨hmem.mpr ⟨hr1, hr2⟩, (fires_spec l j h2j h3j).mpr hrule⟩

theorem claim1_derivation_rule_witness :
    (fillRaw [Cell.empty, Cell.empty, Cell.empty, Cell.filled, Cell.empty,
      Cell.empty, Cell.empty]).isSome = true ∧
    ((fillRaw [Cell.empty, Cell.empty, Cell.empty, Cell.filled, Cell.empty,
      Cell.empty, Cell.empty]).getD []).length
      = ([Cell.empty, Cell.empty, Cell.empty, Cell.filled, Cell.empty,
          Cell.empty, Cell.empty] : Line).length ∧
    (((fillRaw [Cell.empty, Cell.empty, Cell.empty, Cell.filled, Cell.empty,
        Cell.empty, Cell.empty]).getD []).getD 3 Cell.empty = Cell.filled ↔
      (getFirstFilledIdx [Cell.empty, Cell.empty, Cell.empty, Cell.filled,
          Cell.empty, Cell.empty, Cell.empty] - 1 ≤ ((3 : Nat) : Int) ∧
        ((3 : Nat) : Int) ≤ getLastFilledIdx [Cell.empty, Cell.empty,
          Cell.empty, Cell.filled, Cell.empty, Cell.empty, Cell.empty] + 1 ∧
        ((([Cell.empty, Cell.empty, Cell.empty, Cell.filled, Cell.empty,
              Cell.empty, Cell.empty] : Line).getD 3 Cell.empty = Cell.empty ∧
            (wcount [Cell.empty, Cell.empty, Cell.empty, Cell.filled,
              Cell.empty, Cell.empty, Cell.empty] 3 = 2 ∨
             wcount [Cell.empty, Cell.empty, Cell.empty, Cell.filled,
              Cell.empty, Cell.empty, Cell.empty] 3 = 3)) ∨
         (([Cell.empty, Cell.empty, Cell.empty, Cell.filled, Cell.empty,
              Cell.empty, Cell.empty] : Line).getD 3 Cell.empty = Cell.filled ∧
            (wcount [Cell.empty, Cell.empty, Cell.empty, Cell.filled,
              Cell.empty, Cell.empty, Cell.empty] 3 = 3 ∨
             wcount [Cell.empty, Cell.empty, Cell.empty, Cell.filled,
              Cell.empty, Cell.empty, Cell.empty] 3 = 5))))) :=
  claim1_derivation_rule
    [Cell.empty, Cell.empty, Cell.empty, Cell.filled, Cell.empty, Cell.empty,
      Cell.empty] 3 (by decide) (by decide) (by decide)

lemma fillRaw_isSome_of_padInv (r : Line) (hinv : padInv r) (hne : r ≠ []) :
    ∃ out, fillRaw r = some out ∧ out.length = r.length := by
  cases hhf : hasFilled r with
  | true =>
    obtain ⟨out, h1, h2, _⟩ := fillRaw_char r hinv hhf
    exact ⟨out, h1, h2⟩
  | false =>
    rcases Nat.lt_or_ge r.length 2 with hl2 | hl2
    · have hlen1 : r.length = 1 := by
        have hpos : 0 < r.length := List.length_pos.mpr hne
        omega
      have hr : r = [Cell.empty] := by
        cases r with
        | nil => simp at hlen1
        | cons c rest =>
          have hrest : rest = [] := by
            simp only [List.length_cons, Nat.add_left_eq_self] at hlen1
            exact List.eq_nil_of_length_eq_zero hlen1
          subst hrest
          have hc := (hasFilled_eq_false_iff _).mp hhf c (by simp)
          rw [hc]
      rw [hr]
      exact ⟨[Cell.empty], by decide, by decide⟩
    · exact ⟨r, fillRaw_allEmpty r hhf hl2, rfl⟩

lemma fillNextLine_good (r : Line) (hinv : padInv r) (hne : r ≠ []) :
    ∃ out, fillRaw r = some out ∧
      fillNextLine r = some (padTrimLine out) ∧
      padInv (padTrimLine out) ∧ 3 ≤ (padTrimLine out).length := by
  obtain ⟨out, h1, _⟩ := fillRaw_isSome_of_padInv r hinv hne
  refine ⟨out, h1, ?_, padInv_padTrimLine out, padTrimLine_length_ge out⟩
  unfold fillNextLine
  rw [h1]
  rfl

/-- C2: every row with the padding invariant (and at least one cell,
so that Python's lines[-1] access is defined) yields a successor row under
fillNextLine that satisfies the invariant again; when the freshly built
row has any filled cell, its trailing blank run is restored to exactly 3
and its leading blank run is never shortened by the re-padding. -/
theorem claim2_invariant_preserved (r : Line) (hinv : padInv r) (hne : r ≠ []) :
    (fillNextLine r).isSome = true ∧
    padInv ((fillNextLine r).getD []) ∧
    (hasFilled ((fillRaw r).getD []) = true →
      trailingRun ((fillNextLine r).getD []) = 3 ∧
      leadRun ((fillRaw r).getD []) ≤ leadRun ((fillNextLine r).getD [])) := by
  obtain ⟨out, h1, h2, h3, _⟩ := fillNextLine_good r hinv hne
  rw [h1, h2, Option.getD_some, Option.getD_some]
  refine ⟨rfl, h3, ?_⟩
  intro hfo
  refine ⟨trailingRun_padTrimLine out hfo, ?_⟩
  rw [leadRun_padTrimLine out hfo]
  exact le_max_right 3 (leadRun out)

theorem claim2_invariant_preserved_witness :
    (fillNextLine [Cell.empty, Cell.empty, Cell.empty, Cell.filled,
      Cell.empty, Cell.empty, Cell.empty]).isSome = true ∧
    padInv ((fillNextLine [Cell.empty, Cell.empty, Cell.empty, Cell.filled,
      Cell.empty, Cell.empty, Cell.empty]).getD []) ∧
    (hasFilled ((fillRaw [Cell.empty, Cell.empty, Cell.empty, Cell.filled,
        Cell.empty, Cell.empty, Cell.empty]).getD []) = true →
      trailingRun ((fillNextLine [Cell.empty, Cell.empty, Cell.empty,
        Cell.filled, Cell.empty, Cell.empty, Cell.empty]).getD []) = 3 ∧
      leadRun ((fillRaw [Cell.empty, Cell.empty, Cell.empty, Cell.filled,
        Cell.empty, Cell.empty, Cell.empty]).getD [])
        ≤ leadRun ((fillNextLine [Cell.empty, Cell.empty, Cell.empty,
          Cell.filled, Cell.empty, Cell.empty, Cell.empty]).getD [])) :=
  claim2_invariant_preserved
    [Cell.empty, Cell.empty, Cell.empty, Cell.filled, Cell.empty, Cell.empty,
      Cell.empty] (by decide) (by decide)

/-- C3, counterexample to the original statement: the one-cell blank
row satisfies the padding invariant as the spec defines it (entirely
empty), yet fillNextLine scans index 0, for which i - 2 is negative and
getBlock yields fewer than 5 cells. -/
theorem claim3_counterexample :
    padInv [Cell.empty] ∧ (0 : Int) ∈ scanIdxs [Cell.empty] ∧
      ¬ (0 ≤ (0 : Int) - 2) ∧ (getBlock 0 [Cell.empty]).length ≠ 5 := by
  decide

/-- C3 (amended): for every row with the padding invariant that has a
filled cell or at least 2 cells, each scanned index i satisfies i-2 >= 0
and i+2 < length, getBlock returns exactly 5 cells, and the write index is
inside the output buffer (which has the same length as the row). -/
theorem claim3_index_safety (l : Line) (i : Int) (hinv : padInv l)
    (hside : hasFilled l = true ∨ 2 ≤ l.length) (hmem : i ∈ scanIdxs l) :
    0 ≤ i - 2 ∧ i + 2 < (l.length : Int) ∧ (getBlock i l).length = 5 ∧
    0 ≤ i ∧ i < (l.length : Int) := by
  cases hhf : hasFilled l with
  | false =>
    have h2 : 2 ≤ l.length := by
      rcases hside with h | h
      · rw [hhf] at h
        exact Bool.noConfusion h
      · exact h
    have hnil : scanIdxs l = [] := by
      unfold scanIdxs
      have hfi : getFirstFilledIdx l = (l.length : Int) := by
        unfold getFirstFilledIdx
        rw [lstrip_allEmpty l hhf]
        simp
      have hla : getLastFilledIdx l = -1 := by
        unfold getLastFilledIdx
        rw [rstrip_allEmpty l hhf]
        rfl
      rw [hfi, hla]
      exact intRange_eq_nil (by omega)
    rw [hnil] at hmem
    simp at hmem
  | true =>
    obtain ⟨h3, ht⟩ := padInv_facts l hinv hhf
    have hlast := getLastFilledIdx_eq l
    unfold scanIdxs at hmem
    rw [mem_intRange] at hmem
    refine ⟨by omega, by omega, ?_, by omega, by omega⟩
    unfold getBlock pySlice
    have ha : sliceIdx l.length (i - 2) = (i - 2).toNat := by
      unfold sliceIdx
      rw [if_neg (by omega)]
      exact min_eq_left (by omega)
    have hb : sliceIdx l.length (i + 3) = (i + 3).toNat := by
      unfold sliceIdx
      rw [if_neg (by omega)]
      exact min_eq_left (by omega)
    rw [ha, hb, List.length_drop, List.length_take]
    omega

theorem claim3_index_safety_witness :
    0 ≤ (2 : Int) - 2 ∧
    (2 : Int) + 2 < ((([Cell.empty, Cell.empty, Cell.empty, Cell.filled,
      Cell.empty, Cell.empty, Cell.empty] : Line).length : Int)) ∧
    (getBlock 2 [Cell.empty, Cell.empty, Cell.empty, Cell.filled, Cell.empty,
      Cell.empty, Cell.empty]).length = 5 ∧
    0 ≤ (2 : Int) ∧
    (2 : Int) < ((([Cell.empty, Cell.empty, Cell.empty, Cell.filled,
      Cell.empty, Cell.empty, Cell.empty] : Line).length : Int)) :=
  claim3_index_safety
    [Cell.empty, Cell.empty, Cell.empty, Cell.filled, Cell.empty, Cell.empty,
      Cell.empty] 2 (by decide) (Or.inl (by decide)) (by decide)

/-- C10: padTrimLine is idempotent on rows with at least one filled
cell, and its result always has at least 3 cells (a fully blank row is
stored as a non-empty blank sequence). -/
theorem claim10_padTrim_idem_and_min_length (l : Line) :
    (hasFilled l = true → padTrimLine (padTrimLine l) = padTrimLine l) ∧
    3 ≤ (padTrimLine l).length :=
  ⟨fun h => padTrimLine_idem l h, padTrimLine_length_ge l⟩

theorem claim10_padTrim_idem_and_min_length_witness :
    padTrimLine (padTrimLine [Cell.filled]) = padTrimLine [Cell.filled] ∧
    3 ≤ (padTrimLine [Cell.filled]).length :=
  ⟨(claim10_padTrim_idem_and_min_length [Cell.filled]).1 (by decide),
    (claim10_padTrim_idem_and_min_length [Cell.filled]).2⟩

/-! ### The classifier and the session loop -/

lemma patternLoop_ne_other (lastline : Line) (ps : List Line) :
    patternLoop lastline ps ≠ some Label.other := by
  induction ps with
  | nil => simp [patternLoop]
  | cons p rest ih =>
    unfold patternLoop
    split_ifs <;> simp [ih]

lemma printPattern_other_imp_cap (lines : List Line)
    (h : printPattern lines = some Label.other) :
    MAX_ROUNDS ≤ lines.length := by
  unfold printPattern at h
  rcases hres : patternLoop (lines.getLast?.getD []) lines.dropLast with _ | lab
  · rw [hres] at h
    dsimp only at h
    by_cases hc : MAX_ROUNDS ≤ lines.length
    · exact hc
    · rw [if_neg hc] at h
      exact Option.noConfusion h
  · rw [hres] at h
    dsimp only at h
    injection h with h2
    rw [h2] at hres
    exact absurd hres (patternLoop_ne_other _ _)

lemma printPattern_cap_isSome (lines : List Line)
    (h : MAX_ROUNDS ≤ lines.length) :
    (printPattern lines).isSome = true := by
  unfold printPattern
  rcases hres : patternLoop (lines.getLast?.getD []) lines.dropLast with _ | lab
  · dsimp only
    rw [if_pos h]
    rfl
  · rfl

lemma printPattern_singleton (l : Line) : printPattern [l] = none := by
  unfold printPattern patternLoop
  rfl

lemma printPattern_vanishing (lines : List Line) (hne : lines.dropLast ≠ [])
    (hstrip : stripLine (lines.getLast?.getD []) = []) :
    printPattern lines = some Label.vanishing := by
  unfold printPattern
  rcases hd : lines.dropLast with _ | ⟨p, rest⟩
  · exact absurd hd hne
  · unfold patternLoop
    rw [if_pos hstrip]

lemma runFrom_succ (fuel : Nat) (lines : List Line) :
    runFrom (fuel + 1) lines =
      if lines.length < MAX_ROUNDS then
        match stepGame lines with
        | none => none
        | some lines2 =>
          match printPattern lines2 with
          | some lab => some (lab, lines2.length)
          | none => runFrom fuel lines2
      else none := rfl

lemma runFrom_total (fuel : Nat) :
    ∀ (lines : List Line),
      padInv (lines.getLast?.getD []) →
      3 ≤ (lines.getLast?.getD []).length →
      lines.length < MAX_ROUNDS →
      MAX_ROUNDS ≤ lines.length + fuel →
      ∃ lab n, runFrom fuel lines = some (lab, n) ∧
        lines.length < n ∧ n ≤ MAX_ROUNDS ∧
        (lab = Label.other → n = MAX_ROUNDS) := by
  induction fuel with
  | zero =>
    intro lines _ _ h1 h2
    omega
  | succ fuel ih =>
    intro lines hinv hlen hlt hcap
    have hne : lines.getLast?.getD [] ≠ [] := by
      intro h
      rw [h] at hlen
      simp at hlen
    obtain ⟨out, _, hfnl, hninv, hnlen⟩ :=
      fillNextLine_good (lines.getLast?.getD []) hinv hne
    rw [runFrom_succ, if_pos hlt]
    have hstep : stepGame lines = some (lines ++ [padTrimLine out]) := by
      unfold stepGame
      rw [hfnl]
    rw [hstep]
    have hlast2 : (lines ++ [padTrimLine out]).getLast?.getD []
        = padTrimLine out := by
      rw [List.getLast?_concat]
      rfl
    have hlen2 : (lines ++ [padTrimLine out]).length = lines.length + 1 := by
      simp
    dsimp only
    rcases hpp : printPattern (lines ++ [padTrimLine out]) with _ | lab
    · dsimp only
      have hlt2 : (lines ++ [padTrimLine out]).length < MAX_ROUNDS := by
        by_contra hge
        have hsome := printPattern_cap_isSome (lines ++ [padTrimLine out])
          (by omega)
        rw [hpp] at hsome
        exact Bool.noConfusion hsome
      obtain ⟨lab, n, hrun, hn1, hn2, hn3⟩ :=
        ih (lines ++ [padTrimLine out]) (by rw [hlast2]; exact hninv)
          (by rw [hlast2]; exact hnlen) hlt2 (by omega)
      exact ⟨lab, n, hrun, by omega, hn2, hn3⟩
    · dsimp only
      refine ⟨lab, (lines ++ [padTrimLine out]).length, rfl, by omega,
        by omega, ?_⟩
      intro hlab
      rw [hlab] at hpp
      have hge := printPattern_other_imp_cap _ hpp
      omega

/-- C4: from every validated starting row (a nonempty parsed line,
re-padded by play before the session starts) the session terminates with
exactly one label; the label is produced while the history holds between 2
and MAX_ROUNDS rows (rounds 1 to 99 counting the start as round 0), and
the label other is produced only when the history has exactly MAX_ROUNDS
rows. -/
theorem claim4_round_cap (raw : Line) (_hne : raw ≠ []) :
    (run (padTrimLine raw)).isSome = true ∧
    2 ≤ ((run (padTrimLine raw)).getD (Label.other, 0)).2 ∧
    ((run (padTrimLine raw)).getD (Label.other, 0)).2 ≤ MAX_ROUNDS ∧
    (((run (padTrimLine raw)).getD (Label.other, 0)).1 = Label.other →
      ((run (padTrimLine raw)).getD (Label.other, 0)).2 = MAX_ROUNDS) := by
  obtain ⟨lab, n, hrun, h1, h2, h3⟩ := runFrom_total MAX_ROUNDS
    [padTrimLine raw]
    (by simpa using padInv_padTrimLine raw)
    (by simpa using padTrimLine_length_ge raw)
    (by simp [MAX_ROUNDS])
    (by simp [MAX_ROUNDS])
  unfold run
  rw [hrun, Option.getD_some]
  simp only [List.length_singleton] at h1
  exact ⟨rfl, by omega, h2, h3⟩

theorem claim4_round_cap_witness :
    (run (padTrimLine [Cell.filled])).isSome = true ∧
    2 ≤ ((run (padTrimLine [Cell.filled])).getD (Label.other, 0)).2 ∧
    ((run (padTrimLine [Cell.filled])).getD (Label.other, 0)).2 ≤ MAX_ROUNDS ∧
    (((run (padTrimLine [Cell.filled])).getD (Label.other, 0)).1 = Label.other →
      ((run (padTrimLine [Cell.filled])).getD (Label.other, 0)).2
        = MAX_ROUNDS) :=
  claim4_round_cap [Cell.filled] (by decide)

lemma fillNextLine_replicate_empty (m : Nat) (h : 3 ≤ m) :
    fillNextLine (List.replicate m Cell.empty)
      = some (List.replicate 3 Cell.empty) := by
  have hfe := hasFilled_replicate_empty m
  have h1 := fillRaw_allEmpty (List.replicate m Cell.empty) hfe
    (by rw [List.length_replicate]; omega)
  unfold fillNextLine
  rw [h1]
  show some (padTrimLine (List.replicate m Cell.empty))
      = some (List.replicate 3 Cell.empty)
  rw [padTrimLine_replicate_empty]
  rw [show max 3 (6 - m) = 3 from by omega]

lemma run_vanishing_step (start : Line)
    (h : fillNextLine start = some (List.replicate 3 Cell.empty)) :
    run start = some (Label.vanishing, 2) := by
  unfold run
  rw [show MAX_ROUNDS = 99 + 1 from rfl, runFrom_succ]
  rw [if_pos (by simp [MAX_ROUNDS])]
  have hstep : stepGame [start]
      = some [start, List.replicate 3 Cell.empty] := by
    unfold stepGame
    have hlast : ([start] : List Line).getLast?.getD [] = start := rfl
    rw [hlast, h]
    rfl
  rw [hstep]
  have hpp : printPattern [start, List.replicate 3 Cell.empty]
      = some Label.vanishing := by
    apply printPattern_vanishing
    · simp
    · rw [show ([start, List.replicate 3 Cell.empty] : List Line
          ).getLast?.getD [] = List.replicate 3 Cell.empty from rfl]
      exact stripLine_replicate_empty 3
  dsimp only
  rw [hpp]
  rfl

/-- C6, counterexample to the original statement: a fully blank
starting row (here the parsed one-cell row, padded by play) is classified
vanishing at the first check, with 2 rows in the history, not other after
100 rounds. -/
theorem claim6_counterexample :
    run (padTrimLine [Cell.empty]) = some (Label.vanishing, 2) ∧
    run (padTrimLine [Cell.empty]) ≠ some (Label.other, MAX_ROUNDS) := by
  decide

/-- C6 (amended): a fully blank starting row is classified vanishing
at the first classification check (history of 2 rows), because play always
derives one row before classifying, so the initial row is available as a
prior; printPattern alone, on a history of a single row, returns nothing
(the vanishing check needs at least one earlier row). -/
theorem claim6_allEmpty_start (raw : Line) (_hne : raw ≠ [])
    (h : hasFilled raw = false) :
    run (padTrimLine raw) = some (Label.vanishing, 2) ∧
    printPattern [padTrimLine raw] = none := by
  refine ⟨?_, printPattern_singleton _⟩
  apply run_vanishing_step
  rw [padTrimLine_allEmpty raw h]
  exact fillNextLine_replicate_empty _ (le_max_left _ _)

theorem claim6_allEmpty_start_witness :
    run (padTrimLine [Cell.empty, Cell.empty]) = some (Label.vanishing, 2) ∧
    printPattern [padTrimLine [Cell.empty, Cell.empty]] = none :=
  claim6_allEmpty_start [Cell.empty, Cell.empty] (by decide) (by decide)

lemma count_le_of_sublist_block (l : Line) (i : Int) :
    (getBlock i l).count Cell.filled ≤ l.count Cell.filled := by
  have hsub : (getBlock i l).Sublist l := by
    unfold getBlock pySlice
    exact (List.drop_sublist _ _).trans (List.take_sublist _ _)
  exact hsub.count_le Cell.filled

lemma fires_of_count_le_one (l : Line) (hc : l.count Cell.filled ≤ 1)
    (i : Int) : fires l i = false := by
  have hcnt : (getBlock i l).count Cell.filled ≤ 1 :=
    le_trans (count_le_of_sublist_block l i) hc
  unfold fires
  rcases hg : pyGet l i with _ | c
  · rfl
  · dsimp only
    have hb2 : ((getBlock i l).count Cell.filled == 2) = false := by
      rw [beq_eq_false_iff_ne]
      omega
    have hb3 : ((getBlock i l).count Cell.filled == 3) = false := by
      rw [beq_eq_false_iff_ne]
      omega
    have hb5 : ((getBlock i l).count Cell.filled == 5) = false := by
      rw [beq_eq_false_iff_ne]
      omega
    rcases cell_eq_empty_or_filled c with rfl | rfl
    · rw [show (Cell.empty == Cell.empty) = true from rfl, if_pos rfl,
        hb2, hb3]
      rfl
    · rw [show (Cell.filled == Cell.empty) = false from rfl,
        if_neg Bool.false_ne_true, hb3, hb5]
      rfl

lemma eq_replicate_of_getD (xs : Line) (n : Nat) (hlen : xs.length = n)
    (h : ∀ j, j < n → xs.getD j Cell.empty = Cell.empty) :
    xs = List.replicate n Cell.empty := by
  rw [List.eq_replicate_iff]
  refine ⟨hlen, fun b hb => ?_⟩
  obtain ⟨j, hj, hget⟩ := List.mem_iff_getElem.mp hb
  have hd := h j (by omega)
  rw [List.getD_eq_getElem?_getD, List.getElem?_eq_getElem hj] at hd
  rw [← hget]
  exact hd

lemma hasFilled_of_count_one (l : Line) (h : l.count Cell.filled = 1) :
    hasFilled l = true := by
  rw [hasFilled_iff_mem, ← List.count_pos_iff]
  omega

/-- C7: a starting row with exactly one filled cell, once padded,
derives an entirely blank raw row (every 5-cell count is at most 1, so no
rule fires); after re-padding, the appended row is the 3-blank row, and
the session is classified vanishing at the first check. -/
theorem claim7_single_filled_vanishes (raw : Line)
    (h1 : raw.count Cell.filled = 1) :
    fillRaw (padTrimLine raw)
      = some (List.replicate (padTrimLine raw).length Cell.empty) ∧
    fillNextLine (padTrimLine raw) = some (List.replicate 3 Cell.empty) ∧
    run (padTrimLine raw) = some (Label.vanishing, 2) := by
  have hfr : hasFilled raw = true := hasFilled_of_count_one raw h1
  have hcnt : (padTrimLine raw).count Cell.filled = 1 := by
    rw [count_padTrimLine]
    exact h1
  have hfp : hasFilled (padTrimLine raw) = true := by
    rw [hasFilled_padTrimLine]
    exact hfr
  obtain ⟨final, hfill, hlen, hchar⟩ :=
    fillRaw_char (padTrimLine raw) (padInv_padTrimLine raw) hfp
  have hfinal : final = List.replicate (padTrimLine raw).length Cell.empty := by
    apply eq_replicate_of_getD final (padTrimLine raw).length hlen
    intro j hj
    rw [hchar j hj]
    rw [if_neg]
    intro hand
    have hfires := fires_of_count_le_one (padTrimLine raw) (by omega) (j : Int)
    rw [hand.2] at hfires
    exact Bool.noConfusion hfires
  have hraw : fillRaw (padTrimLine raw)
      = some (List.replicate (padTrimLine raw).length Cell.empty) := by
    rw [hfill, hfinal]
  have hnext : fillNextLine (padTrimLine raw)
      = some (List.replicate 3 Cell.empty) := by
    unfold fillNextLine
    rw [hraw]
    show some (padTrimLine (List.replicate (padTrimLine raw).length Cell.empty))
        = some (List.replicate 3 Cell.empty)
    rw [padTrimLine_replicate_empty]
    rw [show max 3 (6 - (padTrimLine raw).length) = 3 from by
      have := padTrimLine_length_ge raw
      omega]
  exact ⟨hraw, hnext, run_vanishing_step _ hnext⟩

theorem claim7_single_filled_vanishes_witness :
    fillRaw (padTrimLine [Cell.filled])
      = some (List.replicate (padTrimLine [Cell.filled]).length Cell.empty) ∧
    fillNextLine (padTrimLine [Cell.filled])
      = some (List.replicate 3 Cell.empty) ∧
    run (padTrimLine [Cell.filled]) = some (Label.vanishing, 2) :=
  claim7_single_filled_vanishes [Cell.filled] (by decide)

lemma patternLoop_eq_findSome (lastline : Line) (ps : List Line) :
    patternLoop lastline ps = ps.findSome? (checkOne lastline) := by
  induction ps with
  | nil => rfl
  | cons p rest ih =>
    rw [List.findSome?_cons]
    by_cases h1 : stripLine lastline = []
    · rw [show checkOne lastline p = some Label.vanishing from by
        unfold checkOne; rw [if_pos h1]]
      unfold patternLoop
      rw [if_pos h1]
    · by_cases h2 : lastline = p
      · rw [show checkOne lastline p = some Label.blinking from by
          unfold checkOne; rw [if_neg h1, if_pos h2]]
        unfold patternLoop
        rw [if_neg h1, if_pos h2]
      · by_cases h3 : stripLine lastline = stripLine p
        · rw [show checkOne lastline p = some Label.gliding from by
            unfold checkOne; rw [if_neg h1, if_neg h2, if_pos h3]]
          unfold patternLoop
          rw [if_neg h1, if_neg h2, if_pos h3]
        · rw [show checkOne lastline p = none from by
            unfold checkOne; rw [if_neg h1, if_neg h2, if_neg h3]]
          unfold patternLoop
          rw [if_neg h1, if_neg h2, if_neg h3]
          exact ih

/-- C5: on any history with at least two rows, printPattern equals
the spec's decision procedure specClassify: scan the prior rows in
increasing index order, check vanishing, then blinking, then gliding for
each prior, return the first hit (so a hit at a smaller prior index beats
any hit at a larger one), and fall back to other at the round cap. -/
theorem claim5_classifier_priority (lines : List Line)
    (_h2 : 2 ≤ lines.length) :
    printPattern lines = specClassify lines := by
  unfold printPattern specClassify
  rw [patternLoop_eq_findSome]

theorem claim5_classifier_priority_witness :
    printPattern [[Cell.empty, Cell.empty, Cell.empty, Cell.filled,
        Cell.empty, Cell.empty, Cell.empty],
      [Cell.empty, Cell.empty, Cell.empty]]
      = specClassify [[Cell.empty, Cell.empty, Cell.empty, Cell.filled,
          Cell.empty, Cell.empty, Cell.empty],
        [Cell.empty, Cell.empty, Cell.empty]] :=
  claim5_classifier_priority
    [[Cell.empty, Cell.empty, Cell.empty, Cell.filled, Cell.empty,
        Cell.empty, Cell.empty],
      [Cell.empty, Cell.empty, Cell.empty]] (by decide)

/-- C8: one round of the session changes the history only by
appending exactly one row at the end: the length grows by one and the
previously stored rows are an unchanged initial segment. -/
theorem claim8_history_frame (lines lines2 : List Line)
    (h : stepGame lines = some lines2) :
    lines2.length = lines.length + 1 ∧ lines2.take lines.length = lines := by
  unfold stepGame at h
  rcases hf : fillNextLine (lines.getLast?.getD []) with _ | nl
  · rw [hf] at h
    exact Option.noConfusion h
  · rw [hf] at h
    dsimp only at h
    injection h with h2
    rw [← h2]
    exact ⟨by simp, List.take_left lines [nl]⟩

theorem claim8_history_frame_witness :
    ([[Cell.empty, Cell.empty, Cell.empty, Cell.filled, Cell.empty,
        Cell.empty, Cell.empty],
      [Cell.empty, Cell.empty, Cell.empty]] : List Line).length
      = ([[Cell.empty, Cell.empty, Cell.empty, Cell.filled, Cell.empty,
          Cell.empty, Cell.empty]] : List Line).length + 1 ∧
    ([[Cell.empty, Cell.empty, Cell.empty, Cell.filled, Cell.empty,
        Cell.empty, Cell.empty],
      [Cell.empty, Cell.empty, Cell.empty]] : List Line).take
        ([[Cell.empty, Cell.empty, Cell.empty, Cell.filled, Cell.empty,
          Cell.empty, Cell.empty]] : List Line).length
      = [[Cell.empty, Cell.empty, Cell.empty, Cell.filled, Cell.empty,
          Cell.empty, Cell.empty]] :=
  claim8_history_frame
    [[Cell.empty, Cell.empty, Cell.empty, Cell.filled, Cell.empty,
        Cell.empty, Cell.empty]]
    [[Cell.empty, Cell.empty, Cell.empty, Cell.filled, Cell.empty,
        Cell.empty, Cell.empty],
      [Cell.empty, Cell.empty, Cell.empty]] (by decide)

/-- C9: whatever label a session emits, its rendering is exactly one
of the four strings the source prints: vanishing, blinking, gliding,
other. -/
theorem claim9_label_rendering (l : Line) (lab : Label) (n : Nat)
    (_h : run l = some (lab, n)) :
    render lab = "vanishing" ∨ render lab = "blinking" ∨
    render lab = "gliding" ∨ render lab = "other" := by
  cases lab
  · exact Or.inl rfl
  · exact Or.inr (Or.inl rfl)
  · exact Or.inr (Or.inr (Or.inl rfl))
  · exact Or.inr (Or.inr (Or.inr rfl))

theorem claim9_label_rendering_witness :
    render Label.vanishing = "vanishing" ∨
    render Label.vanishing = "blinking" ∨
    render Label.vanishing = "gliding" ∨
    render Label.vanishing = "other" :=
  claim9_label_rendering (padTrimLine [Cell.filled]) Label.vanishing 2
    (by decide)
